import Mathlib

/-!
Verification of the GeniusBaby Cosmetics catalog engine and admin product
creation (src/app.py), against the natural-language specification.

Modeling conventions:
* Python floats are modeled as rationals (`ℚ`); the code only compares and
  stores them, so no floating-point rounding is observable in the claims.
* The MongoDB product collection is modeled as a `List Product`; `find` with a
  query document is `List.filter` with the query's matching predicate,
  `count_documents` is the length of that filter, `distinct` is `List.dedup`
  over the projected field, and `insert_one` appends.
* `$text` search semantics live inside MongoDB; the engine only forwards the
  term.  The text-match predicate is therefore a parameter `textMatch` of the
  model, as is the `unicodedata.normalize("NFKD", ·)` library call (`normalize`).
* Python `str.strip()` is modeled by `pyStrip` (drop whitespace at both ends).
-/

namespace GBC

/-- Python `str.strip()` with no arguments: remove leading and trailing
whitespace.  (Restricted to the ASCII whitespace characters of `Char.isWhitespace`;
no claim depends on the exotic Unicode whitespace Python also strips.) -/
def pyStrip (s : String) : String :=
  ⟨((s.data.dropWhile Char.isWhitespace).reverse.dropWhile Char.isWhitespace).reverse⟩

/-- The decimal digits `0`-`9`. -/
def isDigitA (c : Char) : Bool := 48 ≤ c.toNat && c.toNat ≤ 57

/-- The value of a digit string read left to right. -/
def digitsVal (l : List Char) : ℕ := l.foldl (fun a c => 10 * a + (c.toNat - 48)) 0

/-- Python `float(s)` on its decimal forms `[+-]digits[.digits][(e|E)[+-]digits]`
(also `.digits`), returning `none` where `float` raises `ValueError`.
`float` also strips surrounding whitespace.  (The special forms `inf`/`nan` and
digit-group underscores are not modeled; no claim mentions them.) -/
def parseFloat (s : String) : Option ℚ :=
  let l0 := (pyStrip s).data
  let sl : ℚ × List Char :=
    match l0 with
    | '+' :: t => (1, t)
    | '-' :: t => (-1, t)
    | t => (1, t)
  let ip := sl.2.takeWhile isDigitA
  let l1 := sl.2.dropWhile isDigitA
  let fl : List Char × List Char :=
    match l1 with
    | '.' :: t => (t.takeWhile isDigitA, t.dropWhile isDigitA)
    | t => ([], t)
  if ip.isEmpty && fl.1.isEmpty then none
  else
    let mant : ℚ := sl.1 * ((digitsVal ip : ℚ) + (digitsVal fl.1 : ℚ) / (10 : ℚ) ^ fl.1.length)
    match fl.2 with
    | [] => some mant
    | e :: t =>
      if e == 'e' || e == 'E' then
        let st : Bool × List Char :=
          match t with
          | '+' :: t2 => (false, t2)
          | '-' :: t2 => (true, t2)
          | t2 => (false, t2)
        let ed := st.2.takeWhile isDigitA
        let rest := st.2.dropWhile isDigitA
        if ed.isEmpty || !rest.isEmpty then none
        else if st.1 then some (mant / (10 : ℚ) ^ digitsVal ed)
        else some (mant * (10 : ℚ) ^ digitsVal ed)
      else none

/-- Python `int(s)` on strings: `[+-]digits`, `none` where `int` raises.
(`int` also strips surrounding whitespace.) -/
def parseInt (s : String) : Option ℤ :=
  let l0 := (pyStrip s).data
  let sl : ℤ × List Char :=
    match l0 with
    | '+' :: t => (1, t)
    | '-' :: t => (-1, t)
    | t => (1, t)
  if sl.2.isEmpty || !sl.2.all isDigitA then none
  else some (sl.1 * (digitsVal sl.2 : ℤ))

/-- A document of the `products` collection, with the fields `admin_new` writes
(the `updated_at` timestamp is omitted: no route or claim reads it).
`created_at` is an abstract timestamp. -/
structure Product where
  name : String
  slug : String
  brand : String
  category : String
  price : ℚ
  sale_price : ℚ
  description : String
  ingredients : String
  skin_type : String
  image_url : String
  rating : ℚ
  stock : ℤ
  is_featured : Bool
  created_at : ℕ
deriving DecidableEq, Repr

/-- The `price_filter` dict of app.py lines 95-105: the `$gte` / `$lte` keys
that were successfully inserted. -/
structure PriceFilter where
  gte : Option ℚ
  lte : Option ℚ
deriving DecidableEq, Repr

/-- The `filters` query document of app.py lines 90-112: each key is present
(`some`) or absent (`none`). -/
structure Filters where
  category : Option String
  brand : Option String
  price : Option PriceFilter
  text : Option String
deriving DecidableEq, Repr

/-- app.py lines 90-112: build the `filters` document from the (already
stripped) request parameters.  A falsy (empty) string adds no key; a price
bound that fails `float` is dropped by the `except ValueError: pass`; the
`price` key is added only when at least one bound survived. -/
def buildFilters (category brand min_price max_price q : String) : Filters :=
  let priceGte : Option ℚ := if min_price ≠ "" then parseFloat min_price else none
  let priceLte : Option ℚ := if max_price ≠ "" then parseFloat max_price else none
  { category := if category ≠ "" then some category else none
    brand := if brand ≠ "" then some brand else none
    price := if priceGte.isSome || priceLte.isSome then some ⟨priceGte, priceLte⟩ else none
    text := if q ≠ "" then some q else none }

/-- MongoDB semantics of the `price` range document on one value. -/
def matchPrice (pf : PriceFilter) (x : ℚ) : Bool :=
  (match pf.gte with | some a => decide (a ≤ x) | none => true) &&
  (match pf.lte with | some b => decide (x ≤ b) | none => true)

/-- MongoDB semantics of the `filters` document on one product document:
every present key must match (implicit AND); `category`/`brand` are exact
matches; `$text` search is the store's own predicate `textMatch`. -/
def matchesDoc (textMatch : String → Product → Bool) (f : Filters) (pr : Product) : Bool :=
  (match f.category with | some c => pr.category == c | none => true) &&
  (match f.brand with | some b => pr.brand == b | none => true) &&
  (match f.price with | some pf => matchPrice pf pr.price | none => true) &&
  (match f.text with | some q => textMatch q pr | none => true)

/-- A MongoDB sort direction. -/
inductive SortDir
  | asc
  | desc
deriving DecidableEq, Repr

/-- app.py lines 115-123: `sort_map.get(sort, ("created_at", DESCENDING))`. -/
def sortMap (sort : String) : String × SortDir :=
  if sort == "newest" then ("created_at", .desc)
  else if sort == "price_asc" then ("price", .asc)
  else if sort == "price_desc" then ("price", .desc)
  else if sort == "rating" then ("rating", .desc)
  else if sort == "name_asc" then ("name", .asc)
  else if sort == "name_desc" then ("name", .desc)
  else ("created_at", .desc)

/-- Lexicographic comparison of strings by code point, the order Python uses
to compare strings and `sorted` uses by default (also MongoDB's order on the
ASCII strings at hand). -/
def lexLe : List Char → List Char → Bool
  | [], _ => true
  | _ :: _, [] => false
  | x :: xs, y :: ys =>
    if x.toNat < y.toNat then true
    else if y.toNat < x.toNat then false
    else lexLe xs ys

/-- Compare two strings by `lexLe` on their characters. -/
def strLe (a b : String) : Bool := lexLe a.data b.data

/-- Comparison on the field named by `sort_map` (only the four field names in
`sort_map`'s range occur). -/
def fieldLe (field : String) (a b : Product) : Bool :=
  if field == "price" then decide (a.price ≤ b.price)
  else if field == "rating" then decide (a.rating ≤ b.rating)
  else if field == "name" then strLe a.name b.name
  else decide (a.created_at ≤ b.created_at)

/-- The store's `.sort([(sort_field, sort_dir)])`. -/
def sortProducts (field : String) (dir : SortDir) (l : List Product) : List Product :=
  match dir with
  | .asc => l.insertionSort (fun a b => fieldLe field a b)
  | .desc => l.insertionSort (fun a b => fieldLe field b a)

/-- MongoDB `distinct(field)` over the projected field values. -/
def distinct (l : List String) : List String := l.dedup

/-- Python `sorted` on strings (code-point lexicographic, ascending). -/
def sortStrings (l : List String) : List String := l.insertionSort (fun a b => strLe a b)

/-- The raw request parameters of `GET /products`.  `page` and `per_page` are
the integers produced by the `int(...)` coercions on lines 87-88 (a parameter
that fails `int` raises before any of the modeled logic runs). -/
structure ProductsParams where
  q : String
  category : String
  brand : String
  min_price : String
  max_price : String
  sort : String
  page : ℤ
  per_page : ℤ
deriving DecidableEq, Repr

/-- What `GET /products` hands to the template: the engine outputs of spec
section 6 (`list_products`). -/
structure ProductsResult where
  items : List Product
  total : ℕ
  page : ℕ
  pages : ℕ
  per_page : ℕ
  categories : List String
  brands : List String
deriving DecidableEq, Repr

/-- app.py lines 79-152, the catalog listing:
strip the string parameters, clamp `page` to `≥ 1` and `per_page` to `[1, 60]`,
build the filter document, count the matches, fetch one sorted page via
`skip((page-1)*per_page).limit(per_page)`, compute
`pages = (total + per_page - 1) // per_page`, and return the distinct non-empty
category/brand values sorted.  (`page`/`per_page` are nonnegative after the
clamp, so they are carried as `ℕ`; the `textScore` projection only adds a
field no claim reads.) -/
def products (db : List Product) (textMatch : String → Product → Bool)
    (p : ProductsParams) : ProductsResult :=
  let q := pyStrip p.q
  let category := pyStrip p.category
  let brand := pyStrip p.brand
  let min_price := pyStrip p.min_price
  let max_price := pyStrip p.max_price
  let sort := pyStrip p.sort
  let page : ℕ := (max 1 p.page).toNat
  let per_page : ℕ := (max 1 (min 60 p.per_page)).toNat
  let filters := buildFilters category brand min_price max_price q
  let fd := sortMap sort
  let matching := db.filter (matchesDoc textMatch filters)
  let total := matching.length
  let items := ((sortProducts fd.1 fd.2 matching).drop ((page - 1) * per_page)).take per_page
  let pages := (total + per_page - 1) / per_page
  { items := items
    total := total
    page := page
    pages := pages
    per_page := per_page
    categories := sortStrings ((distinct (db.map (fun x => x.category))).filter (fun c => c != ""))
    brands := sortStrings ((distinct (db.map (fun x => x.brand))).filter (fun b => b != "")) }

/-- The ASCII alphanumerics `A`-`Z`, `a`-`z`, `0`-`9` (the regex class
`[a-zA-Z0-9]` of `slugify`). -/
def isAlnumA (c : Char) : Bool :=
  (65 ≤ c.toNat && c.toNat ≤ 90) || (97 ≤ c.toNat && c.toNat ≤ 122) ||
    (48 ≤ c.toNat && c.toNat ≤ 57)

/-- Model of `.encode("ascii", "ignore")`: drop every non-ASCII code point. -/
def asciiIgnore (l : List Char) : List Char := l.filter (fun c => c.toNat ≤ 127)

/-- Collapse adjacent hyphens to one. -/
def squeezeHyphens : List Char → List Char
  | [] => []
  | [c] => [c]
  | a :: b :: t =>
    if a == '-' && b == '-' then squeezeHyphens (b :: t)
    else a :: squeezeHyphens (b :: t)

/-- Model of `re.sub(r"[^a-zA-Z0-9]+", "-", s)`: each maximal run of non-alphanumeric
characters becomes a single hyphen — every non-alphanumeric becomes `-`, and
adjacent hyphens (exactly the images of such runs) are collapsed. -/
def subNonAlnum (l : List Char) : List Char :=
  squeezeHyphens (l.map (fun c => if isAlnumA c then c else '-'))

/-- Python `.strip("-")`: remove leading and trailing hyphens. -/
def stripHyphens (l : List Char) : List Char :=
  ((l.dropWhile (fun c => c == '-')).reverse.dropWhile (fun c => c == '-')).reverse

/-- app.py lines 257-261.  The `unicodedata.normalize("NFKD", ·)` library call
is the parameter `normalize` (the theorems assume of it only what Unicode
guarantees: strings of lowercase ASCII alphanumerics and hyphens are
NFKD-normal, hence fixed points).  After the ASCII filter the string is pure
ASCII, so Python's `.lower()` is `Char.toLower` characterwise. -/
def slugify (normalize : String → String) (s : String) : String :=
  ⟨(stripHyphens (subNonAlnum (asciiIgnore (normalize s).data))).map Char.toLower⟩

/-- The claimed output alphabet of `slugify`: lowercase ASCII letters, digits,
and the hyphen. -/
def lowerAlnumHyphen (c : Char) : Bool :=
  (97 ≤ c.toNat && c.toNat ≤ 122) || (48 ≤ c.toNat && c.toNat ≤ 57) || c == '-'

/-- An ASCII alphanumeric or a hyphen (the characters surviving `subNonAlnum`). -/
def alnumOrHyphen (c : Char) : Bool := isAlnumA c || c == '-'

/-- No two adjacent hyphens. -/
def NoDH (l : List Char) : Prop := l.Chain' (fun a b => ¬(a = '-' ∧ b = '-'))

/-- The shape every `slugify` output has: characters from the slug alphabet,
no adjacent hyphens, and no hyphen at either end. -/
def SlugSafe (l : List Char) : Prop :=
  (∀ c ∈ l, lowerAlnumHyphen c = true) ∧ NoDH l
    ∧ (∀ c, l.head? = some c → c ≠ '-') ∧ (∀ c, l.getLast? = some c → c ≠ '-')

/-- The `request.form` fields read by `POST /admin/new`.  All are raw strings
(`""` models an absent field, which is what `form.get(k, "")` yields, and makes
`form.get("slug") or name` / `... or 0`-style defaulting kick in) except
`is_featured`, which the handler only passes through `bool(...)`. -/
structure AdminForm where
  name : String
  slug : String
  brand : String
  category : String
  price : String
  sale_price : String
  description : String
  ingredients : String
  skin_type : String
  image_url : String
  rating : String
  stock : String
  is_featured : Bool
deriving DecidableEq, Repr

/-- Python `float(s or d)`: the falsy-default idiom — an empty string yields the
default `d`, otherwise the string is parsed. -/
def parseFloatOr (s : String) (d : ℚ) : Option ℚ :=
  if s = "" then some d else parseFloat s

/-- Python `int(s or d)`: as `parseFloatOr`, for `int`. -/
def parseIntOr (s : String) (d : ℤ) : Option ℤ :=
  if s = "" then some d else parseInt s

/-- app.py lines 201-237 (`POST /admin/new`) as a transition on the products
collection.  The token check guards the route but does not touch the
collection; `flash`/`redirect`/`render_template` are presentation.  An empty
name, a `ValueError` from one of the `float`/`int` coercions (which aborts the
request before `insert_one`), or an already existing slug all leave the
collection unchanged; otherwise the new document is inserted. -/
def admin_new (normalize : String → String) (db : List Product) (now : ℕ)
    (f : AdminForm) : List Product :=
  let name := pyStrip f.name
  if name = "" then db
  else
    match parseFloatOr f.price 0, parseFloatOr f.sale_price 0,
        parseFloatOr f.rating (4.8 : ℚ), parseIntOr f.stock 100 with
    | some price, some sale_price, some rating, some stock =>
      let slug := slugify normalize (if f.slug = "" then name else f.slug)
      let image := pyStrip f.image_url
      let doc : Product :=
        { name := name
          slug := slug
          brand := pyStrip f.brand
          category := pyStrip f.category
          price := price
          sale_price := sale_price
          description := pyStrip f.description
          ingredients := pyStrip f.ingredients
          skin_type := pyStrip f.skin_type
          image_url := if image = "" then "/static/img/placeholder.svg" else image
          rating := rating
          stock := stock
          is_featured := f.is_featured
          created_at := now }
      if db.any (fun x => x.slug == slug) then db
      else db ++ [doc]
    | _, _, _, _ => db

/-- Spec section 3: "slug is unique across all products; price and sale price
are non-negative". -/
def Invariant (db : List Product) : Prop :=
  db.Pairwise (fun a b => a.slug ≠ b.slug) ∧ ∀ pr ∈ db, 0 ≤ pr.price ∧ 0 ≤ pr.sale_price

/-- The spec's own description of filter composition, written from its words
rather than from the code: every provided filter must hold (logical AND);
an empty (trimmed) category/brand imposes no condition; category and brand
are exact matches; a price bound constrains only its own side and only when
it parses; a free-text term defers to the store's text search. -/
def specMatches (textMatch : String → Product → Bool) (p : ProductsParams)
    (pr : Product) : Bool :=
  (if pyStrip p.category = "" then true else pr.category == pyStrip p.category) &&
  (if pyStrip p.brand = "" then true else pr.brand == pyStrip p.brand) &&
  (match (if pyStrip p.min_price = "" then none else parseFloat (pyStrip p.min_price)) with
    | some a => decide (a ≤ pr.price)
    | none => true) &&
  (match (if pyStrip p.max_price = "" then none else parseFloat (pyStrip p.max_price)) with
    | some b => decide (pr.price ≤ b)
    | none => true) &&
  (if pyStrip p.q = "" then true else textMatch (pyStrip p.q) pr)

/-! ## Concrete sample data (used to instantiate the theorems) -/

/-- A store whose text search never matches (any concrete predicate works;
the claims hold for every `textMatch`). -/
def tmFalse : String → Product → Bool := fun _ _ => false

/-- A sample catalog entry. -/
def sampleLip : Product :=
  ⟨"Rose Lipstick", "rose-lipstick", "GBC", "Lipstick", 5, 0, "", "", "", "", 5, 10, false, 3⟩

/-- Another sample catalog entry, distinct slug and category. -/
def sampleOil : Product :=
  ⟨"Baby Oil", "baby-oil", "Genius", "Oil", 7, 0, "", "", "", "", 4, 3, true, 5⟩

/-- A two-product sample catalog satisfying the store invariant. -/
def sampleDb : List Product := [sampleLip, sampleOil]

/-- A request with every parameter at its Flask default. -/
def baseParams : ProductsParams := ⟨"", "", "", "", "", "newest", 1, 12⟩

/-- A request far beyond the last page (`page = 9`, `per_page = 12`). -/
def pageNineParams : ProductsParams := ⟨"", "", "", "", "", "newest", 9, 12⟩

/-- A request with out-of-range paging values (`page = -5`, `per_page = 1000`). -/
def oddParams : ProductsParams := ⟨"", "", "", "", "", "newest", -5, 1000⟩

/-- A request with an inverted price range (`min_price = 100`, `max_price = 50`). -/
def invParams : ProductsParams := ⟨"", "", "", "100", "50", "newest", 1, 12⟩

/-- An admin form whose price field carries a negative number. -/
def negPriceForm : AdminForm :=
  ⟨"x", "", "", "", "-5", "", "", "", "", "", "", "", false⟩

/-- A well-behaved admin form (prices left at their defaults). -/
def okForm : AdminForm :=
  ⟨"Soft Cream", "", "GBC", "Cream", "", "", "", "", "", "", "", "", false⟩

/-- An admin form whose computed slug collides with `sampleLip`'s slug. -/
def dupSlugForm : AdminForm :=
  ⟨"Rose Lipstick", "", "", "", "", "", "", "", "", "", "", "", false⟩

/-! ## Field-level unfolding lemmas for `products` -/

theorem products_page_def (db : List Product) (tm : String → Product → Bool)
    (p : ProductsParams) : (products db tm p).page = (max 1 p.page).toNat := rfl

theorem products_per_page_def (db : List Product) (tm : String → Product → Bool)
    (p : ProductsParams) :
    (products db tm p).per_page = (max 1 (min 60 p.per_page)).toNat := rfl

theorem products_total_def (db : List Product) (tm : String → Product → Bool)
    (p : ProductsParams) :
    (products db tm p).total =
      (db.filter (matchesDoc tm (buildFilters (pyStrip p.category) (pyStrip p.brand)
        (pyStrip p.min_price) (pyStrip p.max_price) (pyStrip p.q)))).length := rfl

theorem products_pages_def (db : List Product) (tm : String → Product → Bool)
    (p : ProductsParams) :
    (products db tm p).pages =
      ((products db tm p).total + (products db tm p).per_page - 1) /
        (products db tm p).per_page := rfl

theorem products_items_def (db : List Product) (tm : String → Product → Bool)
    (p : ProductsParams) :
    (products db tm p).items =
      ((sortProducts (sortMap (pyStrip p.sort)).1 (sortMap (pyStrip p.sort)).2
          (db.filter (matchesDoc tm (buildFilters (pyStrip p.category) (pyStrip p.brand)
            (pyStrip p.min_price) (pyStrip p.max_price) (pyStrip p.q))))).drop
        (((products db tm p).page - 1) * (products db tm p).per_page)).take
        (products db tm p).per_page := rfl

theorem products_categories_def (db : List Product) (tm : String → Product → Bool)
    (p : ProductsParams) :
    (products db tm p).categories =
      sortStrings ((distinct (db.map (fun x => x.category))).filter (fun c => c != "")) := rfl

theorem products_brands_def (db : List Product) (tm : String → Product → Bool)
    (p : ProductsParams) :
    (products db tm p).brands =
      sortStrings ((distinct (db.map (fun x => x.brand))).filter (fun b => b != "")) := rfl

theorem per_page_pos (db : List Product) (tm : String → Product → Bool)
    (p : ProductsParams) : 1 ≤ (products db tm p).per_page := by
  rw [products_per_page_def]
  omega

/-- Arithmetic core of the pagination formula: `(t + pp - 1) / pp` is the least
`n` with `t ≤ n * pp`, i.e. `⌈t / pp⌉`. -/
theorem ceil_div_char (t pp : ℕ) (h : 1 ≤ pp) :
    t ≤ ((t + pp - 1) / pp) * pp ∧ (∀ n : ℕ, t ≤ n * pp → (t + pp - 1) / pp ≤ n) := by
  rw [← Nat.ceilDiv_eq_add_pred_div]
  have hpos : 0 < pp := h
  constructor
  · have h3 : t ≤ pp • (t ⌈/⌉ pp) := le_smul_ceilDiv hpos
    simpa [smul_eq_mul, Nat.mul_comm] using h3
  · intro n hn
    exact (ceilDiv_le_iff_le_mul hpos).mpr (by rw [Nat.mul_comm]; exact hn)

/-- C1: `pages` is the ceiling of `total / per_page` — the least page count
covering all matches — computed by `(total + per_page - 1) / per_page` in
integer arithmetic, and `pages = 0` when `total = 0`.  (`per_page > 0` holds
for every request by the clamp, see `per_page_pos`.) -/
theorem products_pages_is_ceiling (db : List Product) (tm : String → Product → Bool)
    (p : ProductsParams) :
    (products db tm p).total ≤ (products db tm p).pages * (products db tm p).per_page
    ∧ (∀ n : ℕ, (products db tm p).total ≤ n * (products db tm p).per_page →
        (products db tm p).pages ≤ n)
    ∧ ((products db tm p).total = 0 → (products db tm p).pages = 0)
    ∧ (products db tm p).pages =
        ((products db tm p).total + (products db tm p).per_page - 1) /
          (products db tm p).per_page := by
  have hpp := per_page_pos db tm p
  obtain ⟨h1, h2⟩ := ceil_div_char (products db tm p).total (products db tm p).per_page hpp
  refine ⟨?_, ?_, ?_, products_pages_def db tm p⟩
  · rw [products_pages_def]; exact h1
  · intro n hn; rw [products_pages_def]; exact h2 n hn
  · intro h0
    rw [products_pages_def, h0, Nat.zero_add]
    exact Nat.div_eq_of_lt (by omega)

/-- C5: `page` is clamped below at 1 and `per_page` is clamped into `[1, 60]`;
integer values already in range pass through unchanged, out-of-range values are
clamped rather than rejected. -/
theorem products_page_clamping (db : List Product) (tm : String → Product → Bool)
    (p : ProductsParams) :
    1 ≤ (products db tm p).page
    ∧ (1 ≤ p.page → ((products db tm p).page : ℤ) = p.page)
    ∧ (p.page < 1 → (products db tm p).page = 1)
    ∧ 1 ≤ (products db tm p).per_page
    ∧ (products db tm p).per_page ≤ 60
    ∧ (1 ≤ p.per_page → p.per_page ≤ 60 → ((products db tm p).per_page : ℤ) = p.per_page)
    ∧ (p.per_page < 1 → (products db tm p).per_page = 1)
    ∧ (60 < p.per_page → (products db tm p).per_page = 60) := by
  rw [products_page_def, products_per_page_def]
  refine ⟨by omega, fun h => by omega, fun h => by omega, by omega, by omega,
    fun h h2 => by omega, fun h => by omega, fun h => by omega⟩

/-! ## Code-point order vs. the canonical string order -/

theorem char_lt_iff (a b : Char) : a < b ↔ a.toNat < b.toNat := by
  rw [Char.lt_def]
  exact ⟨fun h => h, fun h => h⟩

theorem char_eq_of_toNat_eq {a b : Char} (h : a.toNat = b.toNat) : a = b :=
  Char.ext (UInt32.toNat.inj h)

theorem lexLe_iff_not_lex (x : List Char) :
    ∀ y : List Char, lexLe x y = true ↔ ¬ List.Lex (· < ·) y x := by
  induction x with
  | nil =>
    intro y
    constructor
    · intro _ h
      cases h
    · intro _
      rfl
  | cons c cs ih =>
    intro y
    cases y with
    | nil =>
      constructor
      · intro h
        simp [lexLe] at h
      · intro h
        exact absurd List.Lex.nil h
    | cons d ds =>
      rcases Nat.lt_trichotomy c.toNat d.toNat with hlt | heq | hgt
      · constructor
        · intro _ h
          cases h with
          | cons h2 => exact Nat.lt_irrefl _ hlt
          | rel h2 => exact Nat.lt_asymm hlt ((char_lt_iff d c).1 h2)
        · intro _
          simp [lexLe, hlt]
      · have hcd : c = d := char_eq_of_toNat_eq heq
        subst hcd
        have hebar : lexLe (c :: cs) (c :: ds) = lexLe cs ds := by
          simp [lexLe]
        rw [hebar, ih ds]
        constructor
        · intro h hl
          cases hl with
          | cons h2 => exact h h2
          | rel h2 => exact Nat.lt_irrefl _ ((char_lt_iff c c).1 h2)
        · intro h hl
          exact h (List.Lex.cons hl)
      · constructor
        · intro h
          simp [lexLe, Nat.lt_asymm hgt, hgt] at h
        · intro h
          exact absurd (List.Lex.rel ((char_lt_iff d c).2 hgt)) h

theorem strLe_iff (a b : String) : strLe a b = true ↔ a ≤ b := by
  rw [← not_lt, String.lt_iff_toList_lt]
  exact lexLe_iff_not_lex a.data b.data

instance : IsTotal String (fun a b => strLe a b = true) := by
  constructor
  intro a b
  rcases le_total a b with h | h
  · exact Or.inl ((strLe_iff a b).2 h)
  · exact Or.inr ((strLe_iff b a).2 h)

instance : IsTrans String (fun a b => strLe a b = true) := by
  constructor
  intro a b c hab hbc
  exact (strLe_iff a c).2 (le_trans ((strLe_iff a b).1 hab) ((strLe_iff b c).1 hbc))

theorem sortStrings_sorted (l : List String) : List.Sorted (· ≤ ·) (sortStrings l) := by
  have h := List.sorted_insertionSort (fun a b : String => strLe a b = true) l
  exact h.imp (fun hab => (strLe_iff _ _).1 hab)

/-- C8: the `categories` and `brands` lists are alphabetically sorted
(ascending in the canonical string order) and contain no empty value. -/
theorem products_distinct_lists_clean (db : List Product) (tm : String → Product → Bool)
    (p : ProductsParams) :
    List.Sorted (· ≤ ·) (products db tm p).categories
    ∧ (∀ c ∈ (products db tm p).categories, c ≠ "")
    ∧ List.Sorted (· ≤ ·) (products db tm p).brands
    ∧ (∀ b ∈ (products db tm p).brands, b ≠ "") := by
  rw [products_categories_def, products_brands_def]
  refine ⟨sortStrings_sorted _, ?_, sortStrings_sorted _, ?_⟩
  all_goals
    intro c hc
    rw [sortStrings, List.mem_insertionSort] at hc
    have h := List.of_mem_filter hc
    simpa using h

/-! ## Page fetch bounds (C2) -/

theorem sortProducts_length (field : String) (dir : SortDir) (l : List Product) :
    (sortProducts field dir l).length = l.length := by
  cases dir <;> simp [sortProducts, List.length_insertionSort]

/-- C2: the returned item list never exceeds `per_page` entries; the fetch is
`skip ((page - 1) * per_page)` then `limit per_page` over the sorted matching
set; and when the skip passes the total matching count the page is empty
rather than an error. -/
theorem products_items_length (db : List Product) (tm : String → Product → Bool)
    (p : ProductsParams) :
    (products db tm p).items.length ≤ (products db tm p).per_page
    ∧ (products db tm p).items =
        ((sortProducts (sortMap (pyStrip p.sort)).1 (sortMap (pyStrip p.sort)).2
            (db.filter (matchesDoc tm (buildFilters (pyStrip p.category) (pyStrip p.brand)
              (pyStrip p.min_price) (pyStrip p.max_price) (pyStrip p.q))))).drop
          (((products db tm p).page - 1) * (products db tm p).per_page)).take
          (products db tm p).per_page
    ∧ ((products db tm p).total < ((products db tm p).page - 1) * (products db tm p).per_page →
        (products db tm p).items = []) := by
  refine ⟨?_, products_items_def db tm p, ?_⟩
  · rw [products_items_def, List.length_take]
    omega
  · intro h
    rw [products_items_def, List.drop_eq_nil_of_le, List.take_nil]
    rw [sortProducts_length]
    rw [products_total_def] at h
    omega

/-! ## Malformed price bounds are dropped (C3) -/

theorem buildFilters_min_dropped (c b mn mx q : String) (h : parseFloat mn = none) :
    buildFilters c b mn mx q = buildFilters c b "" mx q := by
  by_cases hmn : mn = ""
  · rw [hmn]
  · simp [buildFilters, hmn, h]

theorem buildFilters_max_dropped (c b mn mx q : String) (h : parseFloat mx = none) :
    buildFilters c b mn mx q = buildFilters c b mn "" q := by
  by_cases hmx : mx = ""
  · rw [hmx]
  · simp [buildFilters, hmx, h]

/-- The listing's output depends on the request parameters only through the
filter document, the sort choice, and the (clamped) `page`/`per_page`. -/
theorem products_depends (db : List Product) (tm : String → Product → Bool)
    (p1 p2 : ProductsParams)
    (hf : buildFilters (pyStrip p1.category) (pyStrip p1.brand) (pyStrip p1.min_price)
        (pyStrip p1.max_price) (pyStrip p1.q) =
      buildFilters (pyStrip p2.category) (pyStrip p2.brand) (pyStrip p2.min_price)
        (pyStrip p2.max_price) (pyStrip p2.q))
    (hs : sortMap (pyStrip p1.sort) = sortMap (pyStrip p2.sort))
    (hp : p1.page = p2.page) (hpp : p1.per_page = p2.per_page) :
    products db tm p1 = products db tm p2 := by
  simp only [products, hf, hs, hp, hpp]

/-- C3: a `min_price`/`max_price` string that fails to parse behaves exactly
as if the parameter had been omitted (Flask's default for a missing parameter
is `""`); the request is never rejected for a malformed bound. -/
theorem products_bad_price_bound_dropped (db : List Product) (tm : String → Product → Bool)
    (p : ProductsParams) (s : String) (h : parseFloat (pyStrip s) = none) :
    products db tm { p with min_price := s } = products db tm { p with min_price := "" }
    ∧ products db tm { p with max_price := s } = products db tm { p with max_price := "" } := by
  constructor
  · apply products_depends
    · show buildFilters (pyStrip p.category) (pyStrip p.brand) (pyStrip s)
          (pyStrip p.max_price) (pyStrip p.q) =
        buildFilters (pyStrip p.category) (pyStrip p.brand) (pyStrip "")
          (pyStrip p.max_price) (pyStrip p.q)
      rw [show pyStrip "" = "" from rfl]
      exact buildFilters_min_dropped _ _ _ _ _ h
    · rfl
    · rfl
    · rfl
  · apply products_depends
    · show buildFilters (pyStrip p.category) (pyStrip p.brand) (pyStrip p.min_price)
          (pyStrip s) (pyStrip p.q) =
        buildFilters (pyStrip p.category) (pyStrip p.brand) (pyStrip p.min_price)
          (pyStrip "") (pyStrip p.q)
      rw [show pyStrip "" = "" from rfl]
      exact buildFilters_max_dropped _ _ _ _ _ h
    · rfl
    · rfl
    · rfl

/-! ## Unknown sort keys fall back to newest (C4) -/

theorem sortMap_unknown (s : String)
    (h : s ∉ (["newest", "price_asc", "price_desc", "rating",
        "name_asc", "name_desc"] : List String)) :
    sortMap s = ("created_at", SortDir.desc) := by
  simp only [List.mem_cons, List.not_mem_nil, or_false, not_or] at h
  obtain ⟨h1, h2, h3, h4, h5, h6⟩ := h
  simp [sortMap, h1, h2, h3, h4, h5, h6]

/-- C4: a sort key outside the fixed enumeration behaves exactly like
`sort=newest` (creation time descending); it never raises. -/
theorem products_unknown_sort_defaults (db : List Product) (tm : String → Product → Bool)
    (p : ProductsParams) (s : String)
    (h : pyStrip s ∉ (["newest", "price_asc", "price_desc", "rating",
        "name_asc", "name_desc"] : List String)) :
    products db tm { p with sort := s } = products db tm { p with sort := "newest" } := by
  apply products_depends
  · rfl
  · show sortMap (pyStrip s) = sortMap (pyStrip "newest")
    rw [show pyStrip "newest" = "newest" from rfl, sortMap_unknown _ h]
    rfl
  · rfl
  · rfl

/-! ## Filter composition semantics (C6, C7) -/

theorem matchPrice_split (g l : Option ℚ) (x : ℚ) :
    (match (if g.isSome || l.isSome then some (⟨g, l⟩ : PriceFilter) else none) with
      | some pf => matchPrice pf x
      | none => true) =
    ((match g with | some a => decide (a ≤ x) | none => true) &&
     (match l with | some b2 => decide (x ≤ b2) | none => true)) := by
  cases g <;> cases l <;> simp [matchPrice]

theorem matchesDoc_buildFilters (tm : String → Product → Bool) (c b mn mx q : String)
    (pr : Product) :
    matchesDoc tm (buildFilters c b mn mx q) pr =
    ((if c = "" then true else pr.category == c) &&
     (if b = "" then true else pr.brand == b) &&
     (match (if mn = "" then none else parseFloat mn) with
       | some a => decide (a ≤ pr.price) | none => true) &&
     (match (if mx = "" then none else parseFloat mx) with
       | some b2 => decide (pr.price ≤ b2) | none => true) &&
     (if q = "" then true else tm q pr)) := by
  have hflip : ∀ s : String, (if s ≠ "" then parseFloat s else none) =
      (if s = "" then none else parseFloat s) := by
    intro s
    by_cases hs : s = "" <;> simp [hs]
  have hprice := matchPrice_split (if mn ≠ "" then parseFloat mn else none)
    (if mx ≠ "" then parseFloat mx else none) pr.price
  unfold matchesDoc buildFilters
  rw [hprice, hflip mn, hflip mx]
  by_cases hc : c = "" <;> by_cases hb : b = "" <;> by_cases hq : q = "" <;>
    simp [hc, hb, hq, Bool.and_assoc]

/-- C6: an empty (trimmed) `category`/`brand` imposes no filter at all, and all
provided filters combine by logical AND with exact matching — the document
matcher coincides pointwise with the spec-side `specMatches`, so in particular
`category="Lipstick", brand=""` matches exactly the products whose category
equals `"Lipstick"`, whatever their brand. -/
theorem products_filter_composition (db : List Product) (tm : String → Product → Bool)
    (p : ProductsParams) :
    (∀ pr : Product,
      matchesDoc tm (buildFilters (pyStrip p.category) (pyStrip p.brand)
        (pyStrip p.min_price) (pyStrip p.max_price) (pyStrip p.q)) pr = specMatches tm p pr)
    ∧ (products db tm p).total = (db.filter (specMatches tm p)).length := by
  have hpt : ∀ pr : Product,
      matchesDoc tm (buildFilters (pyStrip p.category) (pyStrip p.brand)
        (pyStrip p.min_price) (pyStrip p.max_price) (pyStrip p.q)) pr = specMatches tm p pr := by
    intro pr
    rw [matchesDoc_buildFilters]
    rfl
  refine ⟨hpt, ?_⟩
  rw [products_total_def]
  congr 1
  exact List.filter_congr (fun pr _ => hpt pr)

/-- C7: when both price bounds parse, the engine builds one range filter
carrying both bounds literally — even inverted, in which case nothing can
match and the listing total is 0 — and a missing bound (`none`) constrains
nothing on its side. -/
theorem products_price_range_literal (db : List Product) (tm : String → Product → Bool)
    (p : ProductsParams) :
    (∀ a b2 : ℚ, pyStrip p.min_price ≠ "" → pyStrip p.max_price ≠ "" →
      parseFloat (pyStrip p.min_price) = some a →
      parseFloat (pyStrip p.max_price) = some b2 →
      (buildFilters (pyStrip p.category) (pyStrip p.brand) (pyStrip p.min_price)
          (pyStrip p.max_price) (pyStrip p.q)).price = some ⟨some a, some b2⟩
      ∧ (b2 < a → (products db tm p).total = 0))
    ∧ (∀ (pf : PriceFilter) (x : ℚ),
        matchPrice pf x = true ↔
          (∀ a, pf.gte = some a → a ≤ x) ∧ (∀ b2, pf.lte = some b2 → x ≤ b2)) := by
  constructor
  · intro a b2 hmn hmx hpa hpb
    have hfield : (buildFilters (pyStrip p.category) (pyStrip p.brand) (pyStrip p.min_price)
        (pyStrip p.max_price) (pyStrip p.q)).price = some ⟨some a, some b2⟩ := by
      simp [buildFilters, hmn, hmx, hpa, hpb]
    refine ⟨hfield, ?_⟩
    intro hlt
    rw [products_total_def, List.length_eq_zero, List.filter_eq_nil_iff]
    intro pr _ hm
    simp only [matchesDoc, hfield, Bool.and_eq_true] at hm
    obtain ⟨⟨⟨_, _⟩, hpr⟩, _⟩ := hm
    rw [matchPrice, Bool.and_eq_true] at hpr
    obtain ⟨h1, h2⟩ := hpr
    have ha : a ≤ pr.price := of_decide_eq_true h1
    have hb : pr.price ≤ b2 := of_decide_eq_true h2
    exact absurd (le_trans ha hb) (not_le.2 hlt)
  · intro pf x
    obtain ⟨g, l⟩ := pf
    cases g <;> cases l <;> simp [matchPrice]

/-! ## Product creation and the store invariant (C9) -/

theorem insert_preserves_invariant (db : List Product) (doc : Product)
    (hInv : Invariant db) (hp : 0 ≤ doc.price) (hsp : 0 ≤ doc.sale_price)
    (hslug : ∀ x ∈ db, x.slug ≠ doc.slug) : Invariant (db ++ [doc]) := by
  constructor
  · rw [List.pairwise_append]
    refine ⟨hInv.1, List.pairwise_singleton _ _, ?_⟩
    intro a ha b hb
    rw [List.mem_singleton] at hb
    subst hb
    exact hslug a ha
  · intro pr hpr
    rcases List.mem_append.1 hpr with h | h
    · exact hInv.2 pr h
    · rw [List.mem_singleton] at h
      subst h
      exact ⟨hp, hsp⟩

theorem parseFloat_neg5 : parseFloat "-5" = some (-5) := by
  rw [show parseFloat "-5" =
      some ((-1 : ℚ) * ((↑(5 : ℕ)) + (↑(0 : ℕ)) / (10 : ℚ) ^ (0 : ℕ))) from rfl]
  norm_num

/-- C9 (amended): `admin_new` preserves slug uniqueness unconditionally — in
particular a request whose slug already exists inserts nothing, whatever the
other form fields hold — and it preserves the whole store invariant provided
the submitted price and sale price parse to non-negative values; the handler
itself never checks the sign (see `admin_new_invariant_cex`). -/
theorem admin_new_invariant_preserved (normalize : String → String) (db : List Product)
    (now : ℕ) (f : AdminForm) :
    (db.Pairwise (fun a b => a.slug ≠ b.slug) →
      (admin_new normalize db now f).Pairwise (fun a b => a.slug ≠ b.slug))
    ∧ (db.any (fun x =>
          x.slug == slugify normalize (if f.slug = "" then pyStrip f.name else f.slug)) = true →
        admin_new normalize db now f = db)
    ∧ (Invariant db →
        (parseFloatOr f.price 0).all (fun x => decide (0 ≤ x)) = true →
        (parseFloatOr f.sale_price 0).all (fun x => decide (0 ≤ x)) = true →
        Invariant (admin_new normalize db now f)) := by
  rw [admin_new]
  by_cases hname : pyStrip f.name = ""
  · rw [if_pos hname]
    exact ⟨fun h => h, fun _ => rfl, fun hInv _ _ => hInv⟩
  · rw [if_neg hname]
    rcases hpr : parseFloatOr f.price 0 with _ | price
    · simp only [hpr]
      exact ⟨fun h => h, fun _ => by trivial, fun hInv _ _ => hInv⟩
    rcases hspr : parseFloatOr f.sale_price 0 with _ | sale_price
    · simp only [hpr, hspr]
      exact ⟨fun h => h, fun _ => by trivial, fun hInv _ _ => hInv⟩
    rcases hrr : parseFloatOr f.rating (4.8 : ℚ) with _ | rating
    · simp only [hpr, hspr, hrr]
      exact ⟨fun h => h, fun _ => by trivial, fun hInv _ _ => hInv⟩
    rcases hst : parseIntOr f.stock 100 with _ | stock
    · simp only [hpr, hspr, hrr, hst]
      exact ⟨fun h => h, fun _ => by trivial, fun hInv _ _ => hInv⟩
    simp only [hpr, hspr, hrr, hst]
    by_cases hany : db.any (fun x =>
        x.slug == slugify normalize (if f.slug = "" then pyStrip f.name else f.slug)) = true
    · rw [if_pos hany]
      exact ⟨fun h => h, fun _ => rfl, fun hInv _ _ => hInv⟩
    · rw [if_neg hany]
      have hslug : ∀ x ∈ db,
          x.slug ≠ slugify normalize (if f.slug = "" then pyStrip f.name else f.slug) := by
        intro x hx
        rw [Bool.not_eq_true] at hany
        have := List.any_eq_false.1 hany x hx
        simpa using this
      refine ⟨?_, fun hc => absurd hc hany, ?_⟩
      · intro hPW
        rw [List.pairwise_append]
        refine ⟨hPW, List.pairwise_singleton _ _, ?_⟩
        intro a ha b hb
        rw [List.mem_singleton] at hb
        subst hb
        exact hslug a ha
      · intro hInv hp hsp
        have hp2 : (0 : ℚ) ≤ price := of_decide_eq_true (by simpa [Option.all] using hp)
        have hsp2 : (0 : ℚ) ≤ sale_price := of_decide_eq_true (by simpa [Option.all] using hsp)
        exact insert_preserves_invariant db _ hInv hp2 hsp2 hslug

/-- C9 counterexample: from the empty store (which satisfies the invariant),
submitting the form with `price = "-5"` inserts a product with negative price —
`admin_new` does not preserve the claimed invariant as stated. -/
theorem admin_new_invariant_cex :
    Invariant ([] : List Product) ∧ ¬ Invariant (admin_new id [] 0 negPriceForm) := by
  constructor
  · exact ⟨List.Pairwise.nil, fun pr h => absurd h (List.not_mem_nil pr)⟩
  · intro hInv
    have hmap : (admin_new id [] 0 negPriceForm).map (fun x => x.price) = [(-5 : ℚ)] := by
      rw [admin_new]
      rw [show pyStrip negPriceForm.name = "x" from rfl]
      rw [if_neg (by decide)]
      rw [show parseFloatOr negPriceForm.price 0 = parseFloat "-5" from rfl, parseFloat_neg5]
      rfl
    obtain ⟨x, hx, hxp⟩ := List.mem_map.1 (by rw [hmap]; exact List.mem_singleton_self _)
    have := (hInv.2 x hx).1
    rw [hxp] at this
    norm_num at this

/-! ## The slugify pipeline (C10) -/

theorem toNat_ofNat_valid (n : ℕ) (h : n.isValidChar) : (Char.ofNat n).toNat = n := by
  rw [Char.ofNat, dif_pos h]
  rfl

theorem toNat_toLower (c : Char) :
    (Char.toLower c).toNat =
      if 65 ≤ c.toNat ∧ c.toNat ≤ 90 then c.toNat + 32 else c.toNat := by
  by_cases h : 65 ≤ c.toNat ∧ c.toNat ≤ 90
  · rw [if_pos h]
    show (if c.toNat ≥ 65 ∧ c.toNat ≤ 90 then Char.ofNat (c.toNat + 32) else c).toNat
      = c.toNat + 32
    rw [if_pos h]
    exact toNat_ofNat_valid _ (Or.inl (by omega))
  · rw [if_neg h]
    show (if c.toNat ≥ 65 ∧ c.toNat ≤ 90 then Char.ofNat (c.toNat + 32) else c).toNat
      = c.toNat
    rw [if_neg h]

theorem char_eq_hyphen_iff (x : Char) : x = '-' ↔ x.toNat = 45 := by
  constructor
  · intro h
    rw [h]
    rfl
  · intro h
    exact char_eq_of_toNat_eq h

theorem lowerAlnumHyphen_iff (x : Char) :
    lowerAlnumHyphen x = true ↔
      (97 ≤ x.toNat ∧ x.toNat ≤ 122) ∨ (48 ≤ x.toNat ∧ x.toNat ≤ 57) ∨ x.toNat = 45 := by
  unfold lowerAlnumHyphen
  simp only [Bool.or_eq_true, Bool.and_eq_true, decide_eq_true_eq, beq_iff_eq,
    char_eq_hyphen_iff]
  tauto

theorem alnumOrHyphen_iff (x : Char) :
    alnumOrHyphen x = true ↔
      (65 ≤ x.toNat ∧ x.toNat ≤ 90) ∨ (97 ≤ x.toNat ∧ x.toNat ≤ 122)
        ∨ (48 ≤ x.toNat ∧ x.toNat ≤ 57) ∨ x.toNat = 45 := by
  unfold alnumOrHyphen isAlnumA
  simp only [Bool.or_eq_true, Bool.and_eq_true, decide_eq_true_eq, beq_iff_eq,
    char_eq_hyphen_iff]
  tauto

theorem toLower_alnumOrHyphen {c : Char} (h : alnumOrHyphen c = true) :
    lowerAlnumHyphen (Char.toLower c) = true := by
  rw [alnumOrHyphen_iff] at h
  rw [lowerAlnumHyphen_iff]
  have ht := toNat_toLower c
  by_cases hup : 65 ≤ c.toNat ∧ c.toNat ≤ 90
  · rw [if_pos hup] at ht
    omega
  · rw [if_neg hup] at ht
    omega

theorem toLower_fix {c : Char} (h : lowerAlnumHyphen c = true) : Char.toLower c = c := by
  rw [lowerAlnumHyphen_iff] at h
  have ht := toNat_toLower c
  rw [if_neg (by omega)] at ht
  exact char_eq_of_toNat_eq ht

theorem toLower_eq_hyphen_iff (c : Char) : Char.toLower c = '-' ↔ c = '-' := by
  constructor
  · intro h
    have ht := toNat_toLower c
    rw [h] at ht
    have h45 : (45 : ℕ) = if 65 ≤ c.toNat ∧ c.toNat ≤ 90 then c.toNat + 32 else c.toNat := ht
    by_cases hup : 65 ≤ c.toNat ∧ c.toNat ≤ 90
    · rw [if_pos hup] at h45
      omega
    · rw [if_neg hup] at h45
      exact char_eq_of_toNat_eq h45.symm
  · intro h
    rw [h]
    decide

theorem squeezeHyphens_subset (l : List Char) : ∀ c ∈ squeezeHyphens l, c ∈ l := by
  induction l with
  | nil => simp [squeezeHyphens]
  | cons a t ih =>
    cases t with
    | nil => simp [squeezeHyphens]
    | cons b t2 =>
      intro c hc
      rw [squeezeHyphens] at hc
      split at hc
      · exact List.mem_cons_of_mem a (ih c hc)
      · rcases List.mem_cons.1 hc with h | h
        · exact h ▸ List.mem_cons_self a _
        · exact List.mem_cons_of_mem a (ih c h)

theorem squeezeHyphens_head (l : List Char) : (squeezeHyphens l).head? = l.head? := by
  induction l with
  | nil => rfl
  | cons a t ih =>
    cases t with
    | nil => rfl
    | cons b t2 =>
      rw [squeezeHyphens]
      split
      · rename_i hab
        rw [ih]
        simp only [Bool.and_eq_true, beq_iff_eq] at hab
        rw [hab.1, hab.2]
        rfl
      · rfl

theorem squeezeHyphens_noDH (l : List Char) : NoDH (squeezeHyphens l) := by
  induction l with
  | nil => exact List.chain'_nil
  | cons a t ih =>
    cases t with
    | nil => exact List.chain'_singleton a
    | cons b t2 =>
      rw [NoDH, squeezeHyphens]
      split
      next hab => exact ih
      next hab =>
        rw [List.chain'_cons']
        refine ⟨?_, ih⟩
        intro y hy
        rw [squeezeHyphens_head] at hy
        simp only [List.head?_cons, Option.mem_def, Option.some.injEq] at hy
        subst hy
        intro hcon
        apply hab
        rw [hcon.1, hcon.2]
        rfl

theorem squeezeHyphens_of_noDH (l : List Char) (h : NoDH l) : squeezeHyphens l = l := by
  induction l with
  | nil => rfl
  | cons a t ih =>
    cases t with
    | nil => rfl
    | cons b t2 =>
      rw [squeezeHyphens]
      rw [NoDH, List.chain'_cons] at h
      rw [if_neg ?_, ih h.2]
      simp only [Bool.and_eq_true, beq_iff_eq]
      exact fun hc => h.1 hc

theorem subNonAlnum_chars (l : List Char) : ∀ c ∈ subNonAlnum l, alnumOrHyphen c = true := by
  intro c hc
  rw [subNonAlnum] at hc
  have hmem := squeezeHyphens_subset _ c hc
  obtain ⟨x, _, hx⟩ := List.mem_map.1 hmem
  by_cases hax : isAlnumA x = true
  · rw [if_pos hax] at hx
    subst hx
    rw [alnumOrHyphen, hax]
    rfl
  · rw [if_neg hax] at hx
    subst hx
    decide

theorem subNonAlnum_noDH (l : List Char) : NoDH (subNonAlnum l) :=
  squeezeHyphens_noDH _

theorem dropWhile_head_not (p : Char → Bool) (l : List Char) :
    ∀ c, (l.dropWhile p).head? = some c → p c = false := by
  induction l with
  | nil => intro c hc; cases hc
  | cons a t ih =>
    intro c hc
    rw [List.dropWhile_cons] at hc
    split at hc
    · exact ih c hc
    · rename_i hpa
      simp only [List.head?_cons, Option.some.injEq] at hc
      subst hc
      exact Bool.not_eq_true _ ▸ hpa

theorem dropWhile_eq_self_of_head (p : Char → Bool) (l : List Char)
    (h : ∀ c, l.head? = some c → p c = false) : l.dropWhile p = l := by
  cases l with
  | nil => rfl
  | cons a t =>
    rw [List.dropWhile_cons, if_neg]
    rw [h a rfl]
    simp

theorem getLast?_dropWhile (p : Char → Bool) (l : List Char) (h : l.dropWhile p ≠ []) :
    (l.dropWhile p).getLast? = l.getLast? := by
  induction l with
  | nil => exact absurd rfl h
  | cons a t ih =>
    rw [List.dropWhile_cons]
    rw [List.dropWhile_cons] at h
    split
    · rename_i hpa
      rw [if_pos hpa] at h
      rw [ih h]
      cases t with
      | nil => exact absurd rfl h
      | cons b t2 => rw [List.getLast?_cons_cons]
    · rfl

theorem chain'_dropWhile {R : Char → Char → Prop} (p : Char → Bool) (l : List Char)
    (h : List.Chain' R l) : List.Chain' R (l.dropWhile p) := by
  induction l with
  | nil => exact h
  | cons a t ih =>
    rw [List.dropWhile_cons]
    split
    · exact ih h.tail
    · exact h

theorem noDH_reverse (l : List Char) (h : NoDH l) : NoDH l.reverse := by
  rw [NoDH, List.chain'_reverse]
  exact h.imp (fun a b hab hc => hab ⟨hc.2, hc.1⟩)

theorem dropWhile_subset (p : Char → Bool) (l : List Char) :
    ∀ c ∈ l.dropWhile p, c ∈ l := by
  induction l with
  | nil => intro c hc; exact hc
  | cons a t ih =>
    intro c hc
    rw [List.dropWhile_cons] at hc
    split at hc
    · exact List.mem_cons_of_mem a (ih c hc)
    · exact hc

theorem stripHyphens_subset (l : List Char) : ∀ c ∈ stripHyphens l, c ∈ l := by
  intro c hc
  rw [stripHyphens, List.mem_reverse] at hc
  have h1 := dropWhile_subset _ _ c hc
  rw [List.mem_reverse] at h1
  exact dropWhile_subset _ _ c h1

theorem stripHyphens_noDH (l : List Char) (h : NoDH l) : NoDH (stripHyphens l) :=
  noDH_reverse _ (chain'_dropWhile _ _ (noDH_reverse _ (chain'_dropWhile _ _ h)))

theorem stripHyphens_getLast (l : List Char) :
    ∀ c, (stripHyphens l).getLast? = some c → c ≠ '-' := by
  intro c hc
  rw [stripHyphens, List.getLast?_reverse] at hc
  have := dropWhile_head_not _ _ c hc
  simpa using this

theorem stripHyphens_head (l : List Char) :
    ∀ c, (stripHyphens l).head? = some c → c ≠ '-' := by
  intro c hc
  rw [stripHyphens, List.head?_reverse] at hc
  have hne : (l.dropWhile (fun c => c == '-')).reverse.dropWhile (fun c => c == '-') ≠ [] := by
    intro hnil
    rw [hnil] at hc
    cases hc
  rw [getLast?_dropWhile _ _ hne, List.getLast?_reverse] at hc
  have := dropWhile_head_not _ _ c hc
  simpa using this

theorem stripHyphens_of_clean (l : List Char)
    (hh : ∀ c, l.head? = some c → c ≠ '-') (hl : ∀ c, l.getLast? = some c → c ≠ '-') :
    stripHyphens l = l := by
  rw [stripHyphens]
  rw [dropWhile_eq_self_of_head (fun c => c == '-') l (fun c hc => by simpa using hh c hc)]
  rw [dropWhile_eq_self_of_head (fun c => c == '-') l.reverse (fun c hc => by
    rw [List.head?_reverse] at hc
    simpa using hl c hc)]
  exact List.reverse_reverse l

theorem map_fix {f : Char → Char} {l : List Char} (h : ∀ c ∈ l, f c = c) :
    l.map f = l := by
  induction l with
  | nil => rfl
  | cons a t ih =>
    rw [List.map_cons, h a (List.mem_cons_self a t), ih (fun c hc => h c (List.mem_cons_of_mem a hc))]

/-- Every `slugify` output is made of lowercase alphanumerics and hyphens,
has no adjacent hyphens, and no hyphen at either end. -/
theorem slugify_safe (normalize : String → String) (s : String) :
    SlugSafe (slugify normalize s).data := by
  have hdata : (slugify normalize s).data =
      (stripHyphens (subNonAlnum (asciiIgnore (normalize s).data))).map Char.toLower := rfl
  rw [hdata]
  refine ⟨?_, ?_, ?_, ?_⟩
  · intro c hc
    obtain ⟨x, hx, hfx⟩ := List.mem_map.1 hc
    subst hfx
    exact toLower_alnumOrHyphen (subNonAlnum_chars _ x (stripHyphens_subset _ x hx))
  · rw [NoDH, List.chain'_map]
    have h := stripHyphens_noDH _ (subNonAlnum_noDH (asciiIgnore (normalize s).data))
    exact h.imp (fun a b hab hc =>
      hab ⟨(toLower_eq_hyphen_iff _).1 hc.1, (toLower_eq_hyphen_iff _).1 hc.2⟩)
  · intro c hc
    rw [List.head?_map] at hc
    rcases hx : (stripHyphens (subNonAlnum (asciiIgnore (normalize s).data))).head? with _ | x
    · rw [hx] at hc
      cases hc
    · rw [hx] at hc
      simp only [Option.map_some', Option.some.injEq] at hc
      intro hcon
      subst hcon
      exact stripHyphens_head _ x hx ((toLower_eq_hyphen_iff x).1 hc)
  · intro c hc
    rw [List.getLast?_map] at hc
    rcases hx : (stripHyphens (subNonAlnum (asciiIgnore (normalize s).data))).getLast? with _ | x
    · rw [hx] at hc
      cases hc
    · rw [hx] at hc
      simp only [Option.map_some', Option.some.injEq] at hc
      intro hcon
      subst hcon
      exact stripHyphens_getLast _ x hx ((toLower_eq_hyphen_iff x).1 hc)

/-- Applying `slugify` to a string that already has the safe shape fixes it (provided the
NFKD normalization fixes it too, which Unicode guarantees for ASCII). -/
theorem slugify_of_safe (normalize : String → String) (t : String)
    (hn : normalize t = t) (hs : SlugSafe t.data) : slugify normalize t = t := by
  obtain ⟨hchars, hnoDH, hhead, hlast⟩ := hs
  rw [slugify, hn]
  have hA : asciiIgnore t.data = t.data := by
    rw [asciiIgnore, List.filter_eq_self]
    intro c hc
    have := (lowerAlnumHyphen_iff c).1 (hchars c hc)
    simp only [decide_eq_true_eq]
    omega
  rw [hA]
  have hmapHy : t.data.map (fun c => if isAlnumA c then c else '-') = t.data := by
    apply map_fix
    intro c hc
    have := (lowerAlnumHyphen_iff c).1 (hchars c hc)
    by_cases hax : isAlnumA c = true
    · rw [if_pos hax]
    · rw [if_neg hax]
      have h2 : ¬((65 ≤ c.toNat ∧ c.toNat ≤ 90) ∨ (97 ≤ c.toNat ∧ c.toNat ≤ 122)
          ∨ (48 ≤ c.toNat ∧ c.toNat ≤ 57)) := by
        intro hcon
        apply hax
        unfold isAlnumA
        simp only [Bool.or_eq_true, Bool.and_eq_true, decide_eq_true_eq]
        tauto
      have h45 : c.toNat = 45 := by omega
      exact ((char_eq_hyphen_iff c).2 h45).symm
  rw [subNonAlnum, hmapHy, squeezeHyphens_of_noDH _ hnoDH,
    stripHyphens_of_clean _ hhead hlast, map_fix (fun c hc => toLower_fix (hchars c hc))]

/-- C10: `slugify` is idempotent, its output uses only lowercase ASCII
letters, digits and hyphens, and never starts or ends with a hyphen.  The
NFKD normalization (external library) is assumed only to fix strings already
inside the output alphabet, which Unicode guarantees. -/
theorem slugify_idempotent (normalize : String → String)
    (hn : ∀ t : String, (∀ c ∈ t.data, lowerAlnumHyphen c = true) → normalize t = t)
    (s : String) :
    slugify normalize (slugify normalize s) = slugify normalize s
    ∧ (∀ c ∈ (slugify normalize s).data, lowerAlnumHyphen c = true)
    ∧ (slugify normalize s).data.head? ≠ some '-'
    ∧ (slugify normalize s).data.getLast? ≠ some '-' := by
  obtain ⟨h1, h2, h3, h4⟩ := slugify_safe normalize s
  refine ⟨?_, h1, fun hc => h3 _ hc rfl, fun hc => h4 _ hc rfl⟩
  exact slugify_of_safe normalize _ (hn _ h1) ⟨h1, h2, h3, h4⟩

/-! ## Concrete instantiations (witnesses) -/

theorem parseFloat_100 : parseFloat "100" = some 100 := by
  rw [show parseFloat "100" =
      some ((1 : ℚ) * ((↑(100 : ℕ)) + (↑(0 : ℕ)) / (10 : ℚ) ^ (0 : ℕ))) from rfl]
  norm_num

theorem parseFloat_50 : parseFloat "50" = some 50 := by
  rw [show parseFloat "50" =
      some ((1 : ℚ) * ((↑(50 : ℕ)) + (↑(0 : ℕ)) / (10 : ℚ) ^ (0 : ℕ))) from rfl]
  norm_num

theorem products_pages_is_ceiling_witness :
    (products ([] : List Product) tmFalse baseParams).pages = 0
    ∧ (products sampleDb tmFalse baseParams).pages ≤ 1 :=
  ⟨(products_pages_is_ceiling [] tmFalse baseParams).2.2.1 (by decide),
   (products_pages_is_ceiling sampleDb tmFalse baseParams).2.1 1 (by decide)⟩

theorem products_items_length_witness :
    (products sampleDb tmFalse pageNineParams).items = [] :=
  (products_items_length sampleDb tmFalse pageNineParams).2.2 (by decide)

theorem products_bad_price_bound_dropped_witness :
    products sampleDb tmFalse { baseParams with min_price := "abc" } =
      products sampleDb tmFalse { baseParams with min_price := "" } :=
  (products_bad_price_bound_dropped sampleDb tmFalse baseParams "abc" (by decide)).1

theorem products_unknown_sort_defaults_witness :
    products sampleDb tmFalse { baseParams with sort := "bogus_value" } =
      products sampleDb tmFalse { baseParams with sort := "newest" } :=
  products_unknown_sort_defaults sampleDb tmFalse baseParams "bogus_value" (by decide)

theorem products_page_clamping_witness :
    (products sampleDb tmFalse oddParams).page = 1
    ∧ (products sampleDb tmFalse oddParams).per_page = 60 :=
  ⟨(products_page_clamping sampleDb tmFalse oddParams).2.2.1 (by decide),
   (products_page_clamping sampleDb tmFalse oddParams).2.2.2.2.2.2.2 (by decide)⟩

theorem products_price_range_literal_witness :
    (buildFilters (pyStrip invParams.category) (pyStrip invParams.brand)
        (pyStrip invParams.min_price) (pyStrip invParams.max_price)
        (pyStrip invParams.q)).price = some ⟨some 100, some 50⟩
    ∧ (products sampleDb tmFalse invParams).total = 0 := by
  have h := (products_price_range_literal sampleDb tmFalse invParams).1 100 50
    (by decide) (by decide) parseFloat_100 parseFloat_50
  exact ⟨h.1, h.2 (by norm_num)⟩

theorem admin_new_invariant_preserved_witness :
    Invariant (admin_new id sampleDb 7 okForm)
    ∧ admin_new id sampleDb 7 dupSlugForm = sampleDb :=
  ⟨(admin_new_invariant_preserved id sampleDb 7 okForm).2.2 ⟨by decide, by decide⟩
      (by decide) (by decide),
   (admin_new_invariant_preserved id sampleDb 7 dupSlugForm).2.1 (by decide)⟩

theorem slugify_idempotent_witness :
    slugify id (slugify id "Baby  Genius!!") = slugify id "Baby  Genius!!"
    ∧ slugify id "Baby  Genius!!" = "baby-genius" :=
  ⟨(slugify_idempotent id (fun t _ => rfl) "Baby  Genius!!").1, by decide⟩

end GBC
